import Mathlib

/-!
Verification of the advent-of-code repository against its specification.

The development covers four components:

* the Intcode machine (the "stored-program numeric computer" of the spec,
  exercised by `src/src/solutions/day02.rs`); its own source is not part of
  the provided tree, so the machine is modelled from the specification text;
* the orbit-map queries of `src/src/day6.rs`;
* the input splitting/parsing helper of `src/util/src/input.rs`;
* the password validator of `src/src/day4.rs`.

Rust vectors become Lean lists, `u32`/`u8` become `Nat`, `i64` tape cells
become `Int`, fallible operations return `Except`/`Option`, and the
fetch-decode-execute loop is given explicit fuel so that every definition
is executable.
-/

namespace Intcode

/-- Modelled from the spec: the error taxonomy of §7 restricted to the
confirmed opcode set (no input/output opcodes are confirmed, so
`PortFailure` cannot arise and is omitted): `InvalidOpcode` when the decoded
opcode is outside the supported set, `MemoryFault` when a resolved address
falls outside `[0, len)`. -/
inductive Fault where
  | invalidOpcode
  | memoryFault
deriving DecidableEq

/-- Modelled from the spec: a Machine owns a Memory Tape (an ordered,
mutable, randomly-indexable sequence of signed integers) and a program
counter starting at 0.  The I/O ports are omitted: no confirmed opcode
invokes them, so they cannot affect any behaviour modelled here. -/
structure Machine where
  tape : List Int
  pc : Nat
deriving DecidableEq

/-- Modelled from the spec: an indexed read of the tape; a read at an
out-of-range index fails with a `MemoryFault` rather than silently growing
or wrapping. -/
def readCell (tape : List Int) (i : Nat) : Except Fault Int :=
  if h : i < tape.length then .ok tape[i] else .error .memoryFault

/-- Modelled from the spec: resolving a position-mode operand address; the
invariant is that indices used as addresses must lie within `[0, len)`,
and a violation is a `MemoryFault`. -/
def resolveAddr (tape : List Int) (a : Int) : Except Fault Nat :=
  if 0 ≤ a ∧ a < tape.length then .ok a.toNat else .error .memoryFault

/-- Modelled from the spec: an indexed write of the tape; a write at an
out-of-range index fails with a `MemoryFault`.  The index has already been
range-checked by `resolveAddr`, so the write is `List.set`. -/
def writeCell (tape : List Int) (i : Nat) (v : Int) : List Int :=
  tape.set i v

/-- Modelled from the spec: the tape effect of a binary arithmetic
instruction (add when `f` is `+`, multiply when `f` is `*`).  Position mode
is the only confirmed addressing mode: operand `i`'s address is
`tape[pc+1+i]` and its value is `tape[address]`; the third parameter is
always treated as a write-address, never dereferenced as a value.  Any
out-of-range access is a `MemoryFault`. -/
def execBinOp (tape : List Int) (pc : Nat) (f : Int → Int → Int) :
    Except Fault (List Int) := do
  let p0 ← readCell tape (pc + 1)
  let p1 ← readCell tape (pc + 2)
  let p2 ← readCell tape (pc + 3)
  let a0 ← resolveAddr tape p0
  let a1 ← resolveAddr tape p1
  let dest ← resolveAddr tape p2
  let v0 ← readCell tape a0
  let v1 ← readCell tape a1
  .ok (writeCell tape dest (f v0 v1))

/-- Modelled from the spec: the decoder's opcode extraction,
`opcode = tape[pc] mod 100`; reading `tape[pc]` out of range is a
`MemoryFault`.  The decoder does not mutate state. -/
def decodeOpcode (tape : List Int) (pc : Nat) : Except Fault Int := do
  let instr ← readCell tape pc
  .ok (instr % 100)

/-- Modelled from the spec: the outcome of one fetch-decode-execute cycle:
the machine halts, keeps running in a new state, or faults. -/
inductive StepResult where
  | halted
  | running (next : Machine)
  | faulted (f : Fault)
deriving DecidableEq

/-- Modelled from the spec: one cycle of the Execution Engine (§4.3).
Decode the instruction at `pc`; on decode failure fault.  Opcode `1` (add)
writes `operand[0] + operand[1]` to the destination address and advances
`pc` by 4; opcode `2` (multiply) does the same with `*`; opcode `99`
halts; any other opcode faults with `InvalidOpcode`.  A faulting cycle
performs no mutation. -/
def step (m : Machine) : StepResult :=
  match decodeOpcode m.tape m.pc with
  | .error f => .faulted f
  | .ok op =>
    if op = 1 then
      match execBinOp m.tape m.pc (· + ·) with
      | .ok t => .running ⟨t, m.pc + 4⟩
      | .error f => .faulted f
    else if op = 2 then
      match execBinOp m.tape m.pc (· * ·) with
      | .ok t => .running ⟨t, m.pc + 4⟩
      | .error f => .faulted f
    else if op = 99 then .halted
    else .faulted .invalidOpcode

/-- Modelled from the spec: the terminal outcome of `run`: `halted` carries
the machine at the halt cycle (success), `faulted` carries the fault and
the machine exactly as it was at the start of the faulting cycle (no
partial rollback of earlier cycles, no mutation by the faulting one).
`outOfFuel` marks that the given cycle budget was exhausted before a
terminal state; a run of a halting program with enough fuel never
returns it. -/
inductive RunResult where
  | halted (m : Machine)
  | faulted (f : Fault) (m : Machine)
  | outOfFuel
deriving DecidableEq

/-- Modelled from the spec: `run` loops cycles until a terminal state
(§4.3), made total with an explicit fuel bound on the number of cycles. -/
def run (fuel : Nat) (m : Machine) : RunResult :=
  match fuel with
  | 0 => .outOfFuel
  | fuel + 1 =>
    match step m with
    | .halted => .halted m
    | .faulted f => .faulted f m
    | .running m2 => run fuel m2

/-- Modelled from the spec: the diagnostic memory dump (§4.1, §6): the tape
as a comma-and-space separated list of decimal integers enclosed in square
brackets, in tape order, with no trailing separator.  The Rust method takes
`&self`; to let non-mutation be stated, the model returns the machine
alongside the string. -/
def dump_memory (m : Machine) : String × Machine :=
  ("[" ++ String.intercalate ", " (m.tape.map toString) ++ "]", m)

/-- Modelled from the spec: constructing a machine from an initial tape
(§4.5); the tape is taken as given, the program counter starts at 0, and
no validation of the tape's contents happens at construction time. -/
def new (initial_tape : List Int) : Machine :=
  ⟨initial_tape, 0⟩

/-- Running a freshly constructed machine on a tape and dumping memory on
halt; `none` when the run faults or exhausts its fuel. -/
def runDump (tape : List Int) (fuel : Nat) : Option String :=
  match run fuel (new tape) with
  | .halted m => some (dump_memory m).1
  | _ => none

/-- The list of program counters of the instructions a run executes before
halting, in execution order; `none` when the run faults or runs out of
fuel. -/
def execTrace (fuel : Nat) (m : Machine) : Option (List Nat) :=
  match fuel with
  | 0 => none
  | fuel + 1 =>
    match step m with
    | .halted => some []
    | .faulted _ => none
    | .running m2 => (execTrace fuel m2).map (fun t => m.pc :: t)

/-- The effect of the single instruction at `pc` on the tape: the updated
tape for an add or multiply, `none` on a halt or any fault. -/
def instrEffect (tape : List Int) (pc : Nat) : Option (List Int) :=
  match decodeOpcode tape pc with
  | .error _ => none
  | .ok op =>
    if op = 1 then (execBinOp tape pc (· + ·)).toOption
    else if op = 2 then (execBinOp tape pc (· * ·)).toOption
    else none

/-- Applying a list of instructions, each exactly once, in the given order,
starting from the given tape. -/
def applyTrace (tape : List Int) : List Nat → Option (List Int)
  | [] => some tape
  | p :: ps =>
    match instrEffect tape p with
    | none => none
    | some t2 => applyTrace t2 ps

end Intcode

namespace Day6

/-- The orbital objects of `src/src/day6.rs`: the strings `"YOU"` and
`"SAN"` map to the distinguished `You` and `Santa` variants, everything
else to `Object`. -/
inductive OrbitalObject where
  | you
  | santa
  | object (name : String)
deriving DecidableEq

/-- The `OrbitMap` struct of `src/src/day6.rs`; the two hash maps are
modelled as association lists. -/
structure OrbitMap where
  all_objects : List OrbitalObject
  lookup : List (OrbitalObject × List OrbitalObject)
  reverse_lookup : List (OrbitalObject × OrbitalObject)

/-- `OrbitMap::object_has_direct_orbit_to_other_object`: `obj1` directly
orbits `obj2` when the reverse lookup maps `obj1` to `obj2`. -/
def object_has_direct_orbit_to_other_object (self : OrbitMap)
    (obj1 obj2 : OrbitalObject) : Bool :=
  match (self.reverse_lookup.find? (fun p => p.1 == obj1)).map Prod.snd with
  | some adjacency => adjacency == obj2
  | none => false

/-- `OrbitMap::object_has_indirect_orbit_to_other_object`: the body of the
Rust function is the literal constant `false`, ignoring the map and both
arguments. -/
def object_has_indirect_orbit_to_other_object (self : OrbitMap)
    (obj1 obj2 : OrbitalObject) : Bool :=
  false

end Day6

namespace Util

/-- The `Input` newtype of `src/util/src/input.rs`: a wrapper around the
raw contents string. -/
structure Input where
  contents : String

/-- `Input::into_vec` from `src/util/src/input.rs`: split the contents on
`sep`, skip empty substrings, parse each remaining substring with
`from_str` (the `T: FromStr` instance, modelled as an explicit function
returning `Except`), and keep only the successful parses. -/
def into_vec {E T : Type} (self : Input) (sep : String)
    (from_str : String → Except E T) : List T :=
  (((self.contents.splitOn sep).filter (fun s => !s.isEmpty)).map
    from_str).filterMap Except.toOption

end Util

namespace Day4

/-- The decimal digits of `n`, most significant first, with an explicit
structural fuel (`n` itself suffices, since `n / 10` loses a digit per
step). -/
def digitsCore : Nat → Nat → List Nat
  | 0, _ => []
  | fuel + 1, n => if n = 0 then [] else digitsCore fuel (n / 10) ++ [n % 10]

/-- The `digits()` iterator of the `digits_iterator` crate used by
`src/src/day4.rs`: the decimal digits of `n` in most-significant-first
order, with `0` yielding the single digit `0`. -/
def digits (n : Nat) : List Nat :=
  if n = 0 then [0] else digitsCore n n

/-- The mutable locals of the digit loop in `is_valid_password`
(`src/src/day4.rs`): `successful_candidate`, `adjacent_sequence`,
`found_a_sequence_of_exactly_two_digits`, and `last_number` (initialised
to `u8::MAX = 255`, a sentinel marking the first iteration). -/
structure PassState where
  successful_candidate : Bool
  adjacent_sequence : String
  found_two : Bool
  last_number : Nat
deriving DecidableEq

/-- The digit loop of `is_valid_password` (`src/src/day4.rs`).  A digit
smaller than its predecessor clears `successful_candidate` and breaks; the
first digit starts the adjacent-run string; a repeated digit extends it; a
larger digit records whether the finished run had length exactly two and
starts a fresh run. -/
def password_loop : List Nat → PassState → PassState
  | [], st => st
  | digit :: rest, st =>
    if st.last_number ≠ 255 ∧ digit < st.last_number then
      { st with successful_candidate := false }
    else if st.last_number = 255 then
      password_loop rest { st with
        adjacent_sequence := st.adjacent_sequence.push (Char.ofNat digit)
        last_number := digit }
    else if digit < st.last_number then
      { st with successful_candidate := false }
    else if digit = st.last_number then
      password_loop rest { st with
        adjacent_sequence := st.adjacent_sequence.push (Char.ofNat digit)
        last_number := digit }
    else
      password_loop rest { st with
        found_two := st.found_two || (st.adjacent_sequence.length == 2)
        adjacent_sequence := String.mk [Char.ofNat digit]
        last_number := digit }

/-- `is_valid_password` from `src/src/day4.rs`: reject unless the candidate
has exactly 6 decimal digits and lies in `[range_start, range_end]`; then
run the digit loop and require both a never-decreasing digit sequence and
some adjacent run of exactly two equal digits (the final run is checked
after the loop). -/
def is_valid_password (candidate range_start range_end : Nat) : Bool :=
  if (digits candidate).length ≠ 6 then false
  else if candidate < range_start ∨ range_end < candidate then false
  else
    let st := password_loop (digits candidate)
      { successful_candidate := true, adjacent_sequence := ""
        found_two := false, last_number := 255 }
    st.successful_candidate && (st.found_two || (st.adjacent_sequence.length == 2))

end Day4

namespace Intcode

/-- The spec's dump shape written as primitive recursion: decimal integers
joined by a comma and a single space, with no leading, trailing or doubled
separator. -/
def renderCells : List Int → String
  | [] => ""
  | [x] => toString x
  | x :: y :: xs => toString x ++ ", " ++ renderCells (y :: xs)

/-- The tail of a separated rendering: each further element is preceded by
one comma-and-space separator. -/
def renderTail : List String → String
  | [] => ""
  | a :: as => ", " ++ a ++ renderTail as

theorem intercalate_go_eq (as : List String) (acc : String) :
    String.intercalate.go acc ", " as = acc ++ renderTail as := by
  induction as generalizing acc with
  | nil => simp [String.intercalate.go, renderTail]
  | cons a as ih =>
    simp [String.intercalate.go, renderTail, ih, String.append_assoc]

theorem renderCells_eq (xs : List Int) :
    String.intercalate ", " (xs.map toString) = renderCells xs := by
  induction xs with
  | nil => rfl
  | cons x xs ih =>
    cases xs with
    | nil => rfl
    | cons y ys =>
      simp only [List.map, String.intercalate, intercalate_go_eq] at ih ⊢
      simp only [renderTail, renderCells, ← ih, String.append_assoc]

end Intcode

/-- Claim C7: for every machine state, `dump_memory` returns the tape rendered as
bracket-enclosed, comma-and-space separated decimal integers in tape order
with no trailing separator, and it leaves the machine unchanged. -/
theorem Intcode.dump_memory_format (m : Intcode.Machine) :
    (Intcode.dump_memory m).1 = "[" ++ Intcode.renderCells m.tape ++ "]" ∧
      (Intcode.dump_memory m).2 = m := by
  refine ⟨?_, rfl⟩
  simp [Intcode.dump_memory, Intcode.renderCells_eq]

/-- Claim C1: the two single-arithmetic-instruction smoke programs: `[1,0,0,0,99]`
runs to a halt with dump `"[2, 0, 0, 0, 99]"` (add writes
`operand[0] + operand[1]` to the address in the third parameter cell), and
`[2,3,0,3,99]` runs to a halt with dump `"[2, 3, 0, 6, 99]"` (multiply
writes the product). -/
theorem Intcode.smoke_single_instruction_programs :
    Intcode.runDump [1, 0, 0, 0, 99] 10 = some "[2, 0, 0, 0, 99]" ∧
      Intcode.runDump [2, 3, 0, 3, 99] 10 = some "[2, 3, 0, 6, 99]" := by
  constructor <;> rfl

/-- Claim C2: running `[1,1,1,4,99,5,6,0,99]` executes the instructions at pc 0
and pc 4 in that order (the pc advancing by 4 after each arithmetic
instruction), and halts at pc 8 with tape `[30, 1, 1, 4, 2, 5, 6, 0, 99]`,
whose dump is `"[30, 1, 1, 4, 2, 5, 6, 0, 99]"`: the first add overwrites
cell 4, turning the would-be halt into a multiply. -/
theorem Intcode.smoke_multi_instruction_program :
    Intcode.run 10 (Intcode.new [1, 1, 1, 4, 99, 5, 6, 0, 99]) =
        .halted ⟨[30, 1, 1, 4, 2, 5, 6, 0, 99], 8⟩ ∧
      Intcode.execTrace 10 (Intcode.new [1, 1, 1, 4, 99, 5, 6, 0, 99]) =
        some [0, 4] ∧
      Intcode.runDump [1, 1, 1, 4, 99, 5, 6, 0, 99] 10 =
        some "[30, 1, 1, 4, 2, 5, 6, 0, 99]" := by
  refine ⟨rfl, rfl, rfl⟩

/-- Claim C3: running `[2,4,4,5,99,0]`, whose multiply reads both operands from
cell 4 (the cell holding the halt opcode 99), halts with dump
`"[2, 4, 4, 5, 99, 9801]"`: self-referential operands are permitted and
`99 * 99 = 9801` lands in cell 5. -/
theorem Intcode.smoke_self_referential_operands :
    Intcode.runDump [2, 4, 4, 5, 99, 0] 10 = some "[2, 4, 4, 5, 99, 9801]" := by
  rfl

/-- Claim C8: `object_has_indirect_orbit_to_other_object` is unconditionally
`false` for every orbit map and every pair of orbital objects: it never
reports an indirect orbit, even when one exists in the map. -/
theorem Day6.indirect_orbit_always_false (m : Day6.OrbitMap)
    (obj1 obj2 : Day6.OrbitalObject) :
    Day6.object_has_indirect_orbit_to_other_object m obj1 obj2 = false := by
  rfl

theorem Intcode.ok_bind {A B : Type} (a : A)
    (f : A → Except Intcode.Fault B) : (Except.ok a >>= f) = f a := rfl

theorem Intcode.error_bind {A B : Type} (e : Intcode.Fault)
    (f : A → Except Intcode.Fault B) :
    ((Except.error e : Except Intcode.Fault A) >>= f) = Except.error e := rfl

theorem Intcode.decodeOpcode_ok (tape : List Int) (pc : Nat) (instr : Int)
    (hread : Intcode.readCell tape pc = .ok instr) :
    Intcode.decodeOpcode tape pc = .ok (instr % 100) := by
  simp [Intcode.decodeOpcode, hread, Intcode.ok_bind]

/-- Claim C5: whenever the cell at the program counter decodes to an opcode
outside the supported set `{1, 2, 99}`, `run` fails with `InvalidOpcode`,
reporting the machine exactly as it stood at the start of that cycle: the
faulting cycle mutates nothing, while `m` itself may already carry the
mutations of earlier cycles. -/
theorem Intcode.invalid_opcode_faults_without_mutation (fuel : Nat)
    (m : Intcode.Machine) (instr : Int)
    (hread : Intcode.readCell m.tape m.pc = .ok instr)
    (h1 : instr % 100 ≠ 1) (h2 : instr % 100 ≠ 2) (h99 : instr % 100 ≠ 99) :
    Intcode.run (fuel + 1) m = .faulted .invalidOpcode m := by
  have hdec := Intcode.decodeOpcode_ok m.tape m.pc instr hread
  have hstep : Intcode.step m = .faulted .invalidOpcode := by
    simp [Intcode.step, hdec, h1, h2, h99]
  simp [Intcode.run, hstep]

/-- Witness for C5: a tape whose first instruction decodes to the
unsupported opcode `5` makes `run` fault with `InvalidOpcode` and report
the untouched machine. -/
theorem Intcode.invalid_opcode_faults_without_mutation_witness :
    (Intcode.readCell [5, 0, 0, 0] 0 = .ok 5 ∧ (5 : Int) % 100 ≠ 1 ∧
        (5 : Int) % 100 ≠ 2 ∧ (5 : Int) % 100 ≠ 99) ∧
      Intcode.run 1 ⟨[5, 0, 0, 0], 0⟩ = .faulted .invalidOpcode ⟨[5, 0, 0, 0], 0⟩ :=
  ⟨⟨rfl, by decide, by decide, by decide⟩,
    Intcode.invalid_opcode_faults_without_mutation 0 ⟨[5, 0, 0, 0], 0⟩ 5
      rfl (by decide) (by decide) (by decide)⟩

theorem Intcode.execBinOp_error_of_bad_addr (tape : List Int) (pc : Nat)
    (f : Int → Int → Int) (p0 p1 p2 : Int)
    (h0 : Intcode.readCell tape (pc + 1) = .ok p0)
    (h1 : Intcode.readCell tape (pc + 2) = .ok p1)
    (h2 : Intcode.readCell tape (pc + 3) = .ok p2)
    (hbad : ¬(0 ≤ p0 ∧ p0 < tape.length) ∨ ¬(0 ≤ p1 ∧ p1 < tape.length) ∨
      ¬(0 ≤ p2 ∧ p2 < tape.length)) :
    Intcode.execBinOp tape pc f = .error .memoryFault := by
  rcases hbad with hb | hb | hb
  · simp [Intcode.execBinOp, h0, h1, h2, Intcode.resolveAddr, hb, Intcode.ok_bind, Intcode.error_bind]
  · by_cases hv0 : 0 ≤ p0 ∧ p0 < tape.length
    · simp [Intcode.execBinOp, h0, h1, h2, Intcode.resolveAddr, hv0, hb, Intcode.ok_bind, Intcode.error_bind]
    · simp [Intcode.execBinOp, h0, h1, h2, Intcode.resolveAddr, hv0, Intcode.ok_bind, Intcode.error_bind]
  · by_cases hv0 : 0 ≤ p0 ∧ p0 < tape.length
    · by_cases hv1 : 0 ≤ p1 ∧ p1 < tape.length
      · simp [Intcode.execBinOp, h0, h1, h2, Intcode.resolveAddr, hv0, hv1, hb, Intcode.ok_bind, Intcode.error_bind]
      · simp [Intcode.execBinOp, h0, h1, h2, Intcode.resolveAddr, hv0, hv1, Intcode.ok_bind, Intcode.error_bind]
    · simp [Intcode.execBinOp, h0, h1, h2, Intcode.resolveAddr, hv0, Intcode.ok_bind, Intcode.error_bind]

/-- Claim C6: whenever an add or multiply instruction's parameter cells are
readable but some resolved operand or destination address falls outside
`[0, len)` of the tape, `run` reports a `MemoryFault` as an ordinary
returned value (no panic exists in the model), leaving the machine as it
stood at the start of the faulting cycle — for every tape and every such
instruction. -/
theorem Intcode.memory_fault_on_out_of_range_address (fuel : Nat)
    (m : Intcode.Machine) (instr p0 p1 p2 : Int)
    (hread : Intcode.readCell m.tape m.pc = .ok instr)
    (hop : instr % 100 = 1 ∨ instr % 100 = 2)
    (h0 : Intcode.readCell m.tape (m.pc + 1) = .ok p0)
    (h1 : Intcode.readCell m.tape (m.pc + 2) = .ok p1)
    (h2 : Intcode.readCell m.tape (m.pc + 3) = .ok p2)
    (hbad : ¬(0 ≤ p0 ∧ p0 < m.tape.length) ∨ ¬(0 ≤ p1 ∧ p1 < m.tape.length) ∨
      ¬(0 ≤ p2 ∧ p2 < m.tape.length)) :
    Intcode.run (fuel + 1) m = .faulted .memoryFault m := by
  have hdec := Intcode.decodeOpcode_ok m.tape m.pc instr hread
  have hexec : ∀ g, Intcode.execBinOp m.tape m.pc g = .error .memoryFault :=
    fun g => Intcode.execBinOp_error_of_bad_addr m.tape m.pc g p0 p1 p2 h0 h1 h2 hbad
  have hstep : Intcode.step m = .faulted .memoryFault := by
    rcases hop with hop | hop <;> simp [Intcode.step, hdec, hop, hexec]
  simp [Intcode.run, hstep]

/-- Witness for C6: an add instruction whose destination address `50`
points beyond the 5-cell tape makes `run` return a `MemoryFault` with the
machine untouched. -/
theorem Intcode.memory_fault_on_out_of_range_address_witness :
    (Intcode.readCell [1, 0, 0, 50, 99] 0 = .ok 1 ∧
        ((1 : Int) % 100 = 1 ∨ (1 : Int) % 100 = 2) ∧
        Intcode.readCell [1, 0, 0, 50, 99] 1 = .ok 0 ∧
        Intcode.readCell [1, 0, 0, 50, 99] 2 = .ok 0 ∧
        Intcode.readCell [1, 0, 0, 50, 99] 3 = .ok 50 ∧
        ¬(0 ≤ (50 : Int) ∧ (50 : Int) < ([1, 0, 0, 50, 99] : List Int).length)) ∧
      Intcode.run 1 ⟨[1, 0, 0, 50, 99], 0⟩ =
        .faulted .memoryFault ⟨[1, 0, 0, 50, 99], 0⟩ :=
  ⟨⟨rfl, by decide, rfl, rfl, rfl, by decide⟩,
    Intcode.memory_fault_on_out_of_range_address 0 ⟨[1, 0, 0, 50, 99], 0⟩ 1 0 0 50
      rfl (by decide) rfl rfl rfl (by decide)⟩

theorem Intcode.step_running_effect (m m2 : Intcode.Machine)
    (h : Intcode.step m = .running m2) :
    Intcode.instrEffect m.tape m.pc = some m2.tape := by
  unfold Intcode.step at h
  unfold Intcode.instrEffect
  cases hdec : Intcode.decodeOpcode m.tape m.pc with
  | error f => rw [hdec] at h; simp at h
  | ok op =>
    rw [hdec] at h
    simp only at h ⊢
    split_ifs at h ⊢ with hop1 hop2 hop99
    · cases hexec : Intcode.execBinOp m.tape m.pc (· + ·) with
      | ok t =>
        rw [hexec] at h
        simp only [Intcode.StepResult.running.injEq] at h
        subst h
        rfl
      | error f => rw [hexec] at h; simp at h
    · cases hexec : Intcode.execBinOp m.tape m.pc (· * ·) with
      | ok t =>
        rw [hexec] at h
        simp only [Intcode.StepResult.running.injEq] at h
        subst h
        rfl
      | error f => rw [hexec] at h; simp at h

/-- Claim C4: whenever `run` halts within its fuel budget, the list of program
counters of the instructions it executed exists (the execution trace, in
program-counter order), and applying each of those instructions exactly
once, in that order, to the initial tape yields exactly the final tape. -/
theorem Intcode.run_halting_trace (fuel : Nat) (m mf : Intcode.Machine)
    (h : Intcode.run fuel m = .halted mf) :
    ∃ pcs : List Nat, Intcode.execTrace fuel m = some pcs ∧
      Intcode.applyTrace m.tape pcs = some mf.tape := by
  induction fuel generalizing m with
  | zero => simp [Intcode.run] at h
  | succ fuel ih =>
    rw [Intcode.run] at h
    rw [Intcode.execTrace]
    cases hstep : Intcode.step m with
    | halted =>
      rw [hstep] at h
      simp only [Intcode.RunResult.halted.injEq] at h
      subst h
      exact ⟨[], rfl, rfl⟩
    | faulted f => rw [hstep] at h; simp at h
    | running m2 =>
      rw [hstep] at h
      simp only at h
      obtain ⟨pcs, htr, happ⟩ := ih m2 h
      refine ⟨m.pc :: pcs, by simp [htr], ?_⟩
      rw [Intcode.applyTrace, Intcode.step_running_effect m m2 hstep]
      exact happ

/-- Witness for C4: the halting run of `[1,0,0,0,99]` yields a trace whose
instruction-by-instruction application reproduces the final tape. -/
theorem Intcode.run_halting_trace_witness :
    ∃ pcs : List Nat,
      Intcode.execTrace 10 (Intcode.new [1, 0, 0, 0, 99]) = some pcs ∧
        Intcode.applyTrace [1, 0, 0, 0, 99] pcs = some [2, 0, 0, 0, 99] :=
  Intcode.run_halting_trace 10 (Intcode.new [1, 0, 0, 0, 99])
    ⟨[2, 0, 0, 0, 99], 4⟩ (by decide)

/-- Claim C9: `into_vec` is a total operation: for every input, separator and
parser it returns a plain list (never an error), keeping exactly the
successful parses of the non-empty substrings — empty substrings are
skipped and parse failures are silently discarded — so malformed entries
only shrink the result, whose length never exceeds the number of
substrings. -/
theorem Util.into_vec_total_characterization {E T : Type} (self : Util.Input)
    (sep : String) (from_str : String → Except E T) :
    Util.into_vec self sep from_str =
      (self.contents.splitOn sep).filterMap
        (fun s => if s.isEmpty then none else (from_str s).toOption) ∧
      (Util.into_vec self sep from_str).length ≤
        (self.contents.splitOn sep).length := by
  have key : ∀ l : List String,
      ((l.filter (fun s => !s.isEmpty)).map from_str).filterMap Except.toOption =
        l.filterMap (fun s => if s.isEmpty then none else (from_str s).toOption) := by
    intro l
    induction l with
    | nil => rfl
    | cons a l ih =>
      by_cases ha : a.isEmpty <;>
        simp [List.filter_cons, ha, ih, List.filterMap_cons]
  have hchar : Util.into_vec self sep from_str =
      (self.contents.splitOn sep).filterMap
        (fun s => if s.isEmpty then none else (from_str s).toOption) :=
    key (self.contents.splitOn sep)
  refine ⟨hchar, ?_⟩
  rw [hchar]
  exact List.length_filterMap_le _ _

/-- Claim C10: `is_valid_password` returns `false` whenever the candidate does
not have exactly 6 decimal digits, or is strictly below `range_start`, or
strictly above `range_end`; a `true` result therefore requires all three
preconditions. -/
theorem Day4.is_valid_password_requires_preconditions
    (candidate range_start range_end : Nat)
    (h : (Day4.digits candidate).length ≠ 6 ∨ candidate < range_start ∨
      range_end < candidate) :
    Day4.is_valid_password candidate range_start range_end = false := by
  unfold Day4.is_valid_password
  split_ifs with h1 h2
  · rfl
  · rfl
  · rcases h with h | h | h
    · exact absurd h h1
    · exact absurd (Or.inl h) h2
    · exact absurd (Or.inr h) h2

/-- Witness for C10: `12345` has five digits, so it is rejected even
though it lies inside the range. -/
theorem Day4.is_valid_password_requires_preconditions_witness :
    ((Day4.digits 12345).length ≠ 6 ∨ 12345 < 0 ∨ 999999 < 12345) ∧
      Day4.is_valid_password 12345 0 999999 = false :=
  ⟨by decide,
    Day4.is_valid_password_requires_preconditions 12345 0 999999 (by decide)⟩
